import Mathlib

/-!
Shallow embedding of the core of the well-known-components http-server
library (middleware composition, router, layer, response normalization),
translated from the TypeScript sources `src/middleware.ts`, `src/router.ts`,
`src/layer.ts` and `src/logic.ts`, together with theorems settling the
specification claims about that code.
-/

set_option maxHeartbeats 1000000

namespace HttpServer

/-- The nine fixed HTTP verbs (`IHttpServerComponent.HTTPMethod`). -/
inductive HTTPMethod where
  | GET | POST | PUT | PATCH | DELETE | HEAD | OPTIONS | TRACE | CONNECT
deriving DecidableEq, Repr

/-- String rendering of a verb, as used for `Allow` header joins. -/
def methodStr : HTTPMethod → String
  | .GET => "GET"
  | .POST => "POST"
  | .PUT => "PUT"
  | .PATCH => "PATCH"
  | .DELETE => "DELETE"
  | .HEAD => "HEAD"
  | .OPTIONS => "OPTIONS"
  | .TRACE => "TRACE"
  | .CONNECT => "CONNECT"

/-- Default implemented-method list of the `Router` constructor
(`router.ts`: `["HEAD", "OPTIONS", "GET", "PUT", "PATCH", "POST", "DELETE"]`). -/
def defaultRouterMethods : List HTTPMethod :=
  [.HEAD, .OPTIONS, .GET, .PUT, .PATCH, .POST, .DELETE]

/-- Minimal model of a JSON-serializable value (a handler body that is
neither a buffer, a string nor a stream). -/
inductive JsonV where
  | nullV
  | boolV (b : Bool)
  | numV (n : Int)
  | strV (s : String)
  | arrV (xs : List JsonV)
  | objV (fs : List (String × JsonV))

/-- JSON string quoting (backslash and quote escaped). -/
def jsonQuote (s : String) : String :=
  "\"" ++ String.join (s.toList.map fun c =>
    if c = '"' then "\\\"" else if c = '\\' then "\\\\" else String.mk [c]) ++ "\""

mutual

/-- Model of `JSON.stringify` for the body values above. -/
def jsonStringify : JsonV → String
  | .nullV => "null"
  | .boolV true => "true"
  | .boolV false => "false"
  | .numV n => toString n
  | .strV s => jsonQuote s
  | .arrV xs => "[" ++ String.intercalate "," (jsonStringifyList xs) ++ "]"
  | .objV fs => "\x7b" ++ String.intercalate "," (jsonStringifyFields fs) ++ "\x7d"

def jsonStringifyList : List JsonV → List String
  | [] => []
  | x :: xs => jsonStringify x :: jsonStringifyList xs

def jsonStringifyFields : List (String × JsonV) → List String
  | [] => []
  | (k, v) :: fs => (jsonQuote k ++ ":" ++ jsonStringify v) :: jsonStringifyFields fs

end

/-- UTF-8 encoding of a single character (byte values as `Nat`). -/
def charUtf8 (c : Char) : List Nat :=
  let n := c.toNat
  if n < 0x80 then [n]
  else if n < 0x800 then [0xC0 + n / 64, 0x80 + n % 64]
  else if n < 0x10000 then
    [0xE0 + n / 4096, 0x80 + (n / 64) % 64, 0x80 + n % 64]
  else
    [0xF0 + n / 262144, 0x80 + (n / 4096) % 64, 0x80 + (n / 64) % 64, 0x80 + n % 64]

/-- UTF-8 encoding of a string, as `Buffer.from(txt, "utf-8")` produces. -/
def utf8Bytes (s : String) : List Nat :=
  s.toList.foldr (fun c acc => charUtf8 c ++ acc) []

/-- Body of a handler-produced (pre-normalization) response: the union of
body shapes `logic.ts` dispatches on (absent, Buffer/TypedArray, string,
Stream, any other JSON-serializable value). The two buffer-like branches of
`normalizeResponseBody` (`Buffer.isBuffer` and `ArrayBuffer`/`Uint8Array`)
behave identically and are modelled by the single `bufB` case. -/
inductive BodyV where
  | noneB
  | bufB (bytes : List Nat)
  | strB (s : String)
  | streamB (sid : Nat)
  | jsonB (j : JsonV)

/-- A handler-produced plain response object (`IHttpServerComponent.IResponse`):
optional status, optional status text, header list, body, and whether the
opaque WebSocket-upgrade callback slot is populated. -/
structure IResponse where
  status : Option Nat
  statusText : Option String
  headers : List (String × String)
  body : BodyV
  hasWsCb : Bool

/-- The empty object `{}` that `compose`'s dispatch resolves with when it
runs past the end of the middleware list. -/
def emptyIResponse : IResponse :=
  { status := none, statusText := none, headers := [], body := .noneB, hasWsCb := false }

/-- Output body of a normalized (`fetch.Response`) value. -/
inductive OutBody where
  | noneB
  | bytesB (bs : List Nat)
  | streamB (sid : Nat)
deriving DecidableEq, Repr

/-- Model of a canonical `fetch.Response`: concrete status, status text,
lowercase-keyed header list, body, and the WebSocket-callback slot. -/
structure FetchResponse where
  status : Nat
  statusText : String
  headers : List (String × String)
  body : OutBody
  hasWsCb : Bool

/-- ASCII lowercase of one character. -/
def lowerChar (c : Char) : Char :=
  if 'A' ≤ c ∧ c ≤ 'Z' then Char.ofNat (c.toNat + 32) else c

/-- ASCII lowercase of a string (header keys are ASCII). -/
def lowerStr (s : String) : String :=
  String.mk (s.toList.map lowerChar)

/-- Case-insensitive header membership (`fetch.Headers.has`). -/
def hHas (h : List (String × String)) (k : String) : Bool :=
  h.any fun p => p.1 = lowerStr k

/-- Case-insensitive header set (`fetch.Headers.set`): replaces the value in
place when the key exists, appends a lowercased entry otherwise. -/
def hSet (h : List (String × String)) (k v : String) : List (String × String) :=
  if hHas h k then h.map (fun p => if p.1 = lowerStr k then (p.1, v) else p)
  else h ++ [(lowerStr k, v)]

/-- Case-insensitive header removal (`fetch.Headers.delete`). -/
def hDelete (h : List (String × String)) (k : String) : List (String × String) :=
  h.filter fun p => p.1 ≠ lowerStr k

/-- `new fetch.Headers(init)`: sets every entry of the init list in order. -/
def headersInit (l : List (String × String)) : List (String × String) :=
  l.foldl (fun acc p => hSet acc p.1 p.2) []

/-- A transport-agnostic request as far as normalization is concerned:
only the method is inspected by `normalizeResponseBody`. -/
structure Request where
  method : HTTPMethod
deriving DecidableEq, Repr

/-- The value a middleware chain hands to `normalizeResponseBody`:
nothing at all (`undefined`/null), an already-canonical `fetch.Response`,
or a plain response object. -/
inductive HandlerOut where
  | nullR
  | canonical (r : FetchResponse)
  | plain (r : IResponse)

/-- The status of a handler outcome, as read by `response.status`. -/
def HandlerOut.statusOf : HandlerOut → Option Nat
  | .nullR => none
  | .canonical r => some r.status
  | .plain r => r.status

/-- Header list of a (non-null) handler outcome. -/
def HandlerOut.headersOf : HandlerOut → List (String × String)
  | .nullR => []
  | .canonical r => r.headers
  | .plain r => r.headers

/-- Status text of a (non-null) handler outcome. -/
def HandlerOut.statusTextOf : HandlerOut → Option String
  | .nullR => none
  | .canonical r => some r.statusText
  | .plain r => r.statusText

/-- `respondBuffer` (`logic.ts`): stamps `Content-Length` with the exact
byte length and returns a response carrying the bytes. -/
def respondBuffer (bytes : List Nat) (r : IResponse)
    (mutableHeaders : List (String × String)) : FetchResponse :=
  let mh := hSet mutableHeaders "Content-Length" (toString bytes.length)
  { status := r.status.getD 200
    statusText := r.statusText.getD ""
    headers := mh
    body := .bytesB bytes
    hasWsCb := false }

/-- `respondString` (`logic.ts`): UTF-8 encodes, defaults
`Content-Type: text/plain; charset=utf-8` when unset, then behaves as a buffer. -/
def respondString (txt : String) (r : IResponse)
    (mutableHeaders : List (String × String)) : FetchResponse :=
  let retBuffer := utf8Bytes txt
  let mh :=
    if hHas mutableHeaders "content-type" then mutableHeaders
    else hSet mutableHeaders "content-type" "text/plain; charset=utf-8"
  respondBuffer retBuffer r mh

/-- `respondJson` (`logic.ts`): defaults `Content-Type: application/json`
when unset, then stringifies and behaves as a string. -/
def respondJson (j : JsonV) (r : IResponse)
    (mutableHeaders : List (String × String)) : FetchResponse :=
  let mh :=
    if hHas mutableHeaders "content-type" then mutableHeaders
    else hSet mutableHeaders "content-type" "application/json"
  respondString (jsonStringify j) r mh

/-- The no-body condition of `normalizeResponseBody` (`logic.ts`, lines
227-230 and 243): status 1xx, 204 or 304, or request method HEAD. -/
def isNoBody (req : Request) (status : Option Nat) : Bool :=
  (match status with
   | some s => decide (100 ≤ s) && decide (s < 200)
   | none => false) ||
  status = some 204 || status = some 304 || req.method = .HEAD

/-- The mutable header object of `normalizeResponseBody` (`logic.ts`, lines
232-239): the response headers, with `Content-Type`, `Content-Length` and
`Transfer-Encoding` deleted when the status is 204 or 304. -/
def normMutableHeaders (r : IResponse) : List (String × String) :=
  let mh := headersInit r.headers
  if r.status = some 204 || r.status = some 304 then
    hDelete (hDelete (hDelete mh "Content-Type") "Content-Length") "Transfer-Encoding"
  else mh

/-- `normalizeResponseBody` (`logic.ts`, lines 205-269): converts a handler
outcome into a canonical response. Null outcome gives 501; status 101
preserves the WebSocket callback slot; an already-canonical response is
copied; a plain response goes through the 1xx/204/304/HEAD body-stripping
rules and then body-type dispatch. -/
def normalizeResponseBody (request : Request) (response : HandlerOut) : FetchResponse :=
  match response with
  | .nullR =>
    { status := 501, statusText := "Server did not produce a valid response"
      headers := [], body := .noneB, hasWsCb := false }
  | resp =>
    if resp.statusOf = some 101 then
      { status := 101
        statusText := resp.statusTextOf.getD ""
        headers := headersInit resp.headersOf
        body := .noneB
        hasWsCb := true }
    else
      match resp with
      | .nullR =>
        { status := 501, statusText := "Server did not produce a valid response"
          headers := [], body := .noneB, hasWsCb := false }
      | .canonical r =>
        { status := r.status, statusText := r.statusText
          headers := r.headers, body := r.body, hasWsCb := false }
      | .plain r =>
        let mutableHeaders := normMutableHeaders r
        if isNoBody request r.status then
          { status := r.status.getD 200, statusText := r.statusText.getD ""
            headers := mutableHeaders, body := .noneB, hasWsCb := false }
        else
          match r.body with
          | .bufB bs => respondBuffer bs r mutableHeaders
          | .strB s => respondString s r mutableHeaders
          | .streamB sid =>
            { status := r.status.getD 200, statusText := r.statusText.getD ""
              headers := headersInit r.headers, body := .streamB sid, hasWsCb := false }
          | .jsonB j => respondJson j r mutableHeaders
          | .noneB =>
            let mh :=
              if hHas mutableHeaders "content-length" then mutableHeaders
              else hSet mutableHeaders "content-length" "0"
            { status := r.status.getD 200, statusText := r.statusText.getD ""
              headers := mh, body := .noneB, hasWsCb := false }

/-- `initialResponse` (`logic.ts`): the value the default terminal handler
resolves with when no route produced a response. -/
def initialResponse : IResponse :=
  { status := some 404, statusText := none, headers := [], body := .strB "Not found"
    hasWsCb := false }

/-- `defaultHandler` (`logic.ts`, lines 200-202): always returns
`initialResponse`. -/
def defaultHandler : IResponse := initialResponse

/-- The method-set computation of the `Layer` constructor (`layer.ts`,
lines 49-52): every given verb is pushed (uppercased), and whenever the
just-pushed verb is `GET`, `HEAD` is additionally unshifted. -/
def layerMethods (methods : List HTTPMethod) : List HTTPMethod :=
  methods.foldl (fun acc m =>
    let acc2 := acc ++ [m]
    if m = .GET then .HEAD :: acc2 else acc2) []

/-- Numeric value of a hexadecimal digit, if any. -/
def hexDigit (c : Char) : Option Nat :=
  if '0' ≤ c ∧ c ≤ '9' then some (c.toNat - 48)
  else if 'A' ≤ c ∧ c ≤ 'F' then some (c.toNat - 55)
  else if 'a' ≤ c ∧ c ≤ 'f' then some (c.toNat - 87)
  else none

/-- First phase of `decodeURIComponent`: turn percent escapes into raw
bytes, leaving other characters alone; fails on malformed escapes. -/
def pctTokens : List Char → Option (List (Char ⊕ Nat))
  | [] => some []
  | '%' :: a :: b :: rest =>
    match hexDigit a, hexDigit b, pctTokens rest with
    | some ha, some hb, some t => some (.inr (ha * 16 + hb) :: t)
    | _, _, _ => none
  | '%' :: _ => none
  | c :: rest => (pctTokens rest).map (fun t => .inl c :: t)

/-- Second phase of `decodeURIComponent`: UTF-8 decode the byte runs,
failing on invalid sequences (as the JavaScript builtin throws `URIError`). -/
def utf8DecodeTokens : List (Char ⊕ Nat) → Option (List Char)
  | [] => some []
  | .inl c :: rest => (utf8DecodeTokens rest).map (fun t => c :: t)
  | .inr b :: rest =>
    if b < 0x80 then (utf8DecodeTokens rest).map (fun t => Char.ofNat b :: t)
    else if 0xC2 ≤ b ∧ b ≤ 0xDF then
      match rest with
      | .inr b2 :: rest2 =>
        if 0x80 ≤ b2 ∧ b2 < 0xC0 then
          (utf8DecodeTokens rest2).map (fun t => Char.ofNat ((b - 0xC0) * 64 + (b2 - 0x80)) :: t)
        else none
      | _ => none
    else if 0xE0 ≤ b ∧ b ≤ 0xEF then
      match rest with
      | .inr b2 :: .inr b3 :: rest2 =>
        if (0x80 ≤ b2 ∧ b2 < 0xC0) ∧ (0x80 ≤ b3 ∧ b3 < 0xC0) then
          let cp := (b - 0xE0) * 4096 + (b2 - 0x80) * 64 + (b3 - 0x80)
          if 0x800 ≤ cp ∧ (cp < 0xD800 ∨ 0xE000 ≤ cp) then
            (utf8DecodeTokens rest2).map (fun t => Char.ofNat cp :: t)
          else none
        else none
      | _ => none
    else if 0xF0 ≤ b ∧ b ≤ 0xF4 then
      match rest with
      | .inr b2 :: .inr b3 :: .inr b4 :: rest2 =>
        if (0x80 ≤ b2 ∧ b2 < 0xC0) ∧ (0x80 ≤ b3 ∧ b3 < 0xC0) ∧ (0x80 ≤ b4 ∧ b4 < 0xC0) then
          let cp := (b - 0xF0) * 262144 + (b2 - 0x80) * 4096 + (b3 - 0x80) * 64 + (b4 - 0x80)
          if 0x10000 ≤ cp ∧ cp ≤ 0x10FFFF then
            (utf8DecodeTokens rest2).map (fun t => Char.ofNat cp :: t)
          else none
        else none
      | _ => none
    else none

/-- Model of the JavaScript `decodeURIComponent` builtin: `none` models the
thrown `URIError`. -/
def decodeURIComponentOpt (text : String) : Option String :=
  match pctTokens text.toList with
  | none => none
  | some toks => (utf8DecodeTokens toks).map (fun cs => String.mk cs)

/-- `safeDecodeURIComponent` (`layer.ts`, lines 143-149): decode, and on
failure return the original text instead of throwing. -/
def safeDecodeURIComponent (text : String) : String :=
  match decodeURIComponentOpt text with
  | some d => d
  | none => text

/-- Lookup in a JavaScript-object-like parameter map. -/
def pLookup (m : List (String × String)) (k : String) : Option String :=
  (m.find? (fun p => p.1 = k)).map (fun p => p.2)

/-- JavaScript-object property assignment: overwrite in place if the key
exists, append otherwise. -/
def pSet (m : List (String × String)) (k v : String) : List (String × String) :=
  if m.any (fun p => p.1 = k) then
    m.map (fun p => if p.1 = k then (k, v) else p)
  else m ++ [(k, v)]

/-- The value bound for one capture (`layer.ts`, line 96:
`c ? safeDecodeURIComponent(c) : c`). -/
def decodedCapture (c : String) : String :=
  if c ≠ "" then safeDecodeURIComponent c else c

/-- The capture-binding loop of `Layer.params` at position `i`. -/
def paramsGo (names : List String) : Nat → List String → List (String × String) →
    List (String × String)
  | _, [], m => m
  | i, c :: cs, m =>
    let m2 :=
      match names[i]? with
      | some nm => pSet m nm (decodedCapture c)
      | none => m
    paramsGo names (i + 1) cs m2

/-- `Layer.params` (`layer.ts`, lines 90-101): zip the layer parameter
names with the captures, percent-decoding non-empty captures safely, and
merge the bindings into the existing parameter map (which is mutated, not
replaced). -/
def layerParams (names : List String) (captures : List String)
    (existingParams : List (String × String)) : List (String × String) :=
  paramsGo names 0 captures existingParams

/-- The `ignoreCaptures` value computed by `Router.use` for a plain
(non-router) middleware (`router.ts`, lines 174-178): given the optional
explicit path scope, the router prefix option, and the key list that
`pathToRegexp` extracts from a pattern. -/
def useIgnoreCaptures (path : Option String) (routerPfx : Option String)
    (keysOf : String → List String) : Bool :=
  let keys := keysOf (routerPfx.getD "")
  let routerPfxHasParam : Bool := decide ((routerPfx.getD "") ≠ "") && !keys.isEmpty
  !path.isSome && !routerPfxHasParam

/-- The pattern `Router.use` registers a plain middleware under when no
explicit path scope is given (`router.ts`, line 178). -/
def useGenericRegisterPath (path : Option String) : String :=
  path.getD "([^/]*)"

/-- The result of compiling a path pattern with `path-to-regexp`
(an external library): a path test and the ordered named-parameter keys.
The compiler itself is kept abstract; definitions that need it take a
compile function as an argument. -/
structure CompiledPath where
  test : String → Bool
  keys : List String

/-- The option record a `Layer` keeps (`layer.ts` `LayerOptions`, with
`end` renamed `endFlag`). -/
structure LOpts where
  sensitive : Bool
  strict : Bool
  endFlag : Bool
  ignoreCaptures : Bool
deriving DecidableEq, Repr

/-- One registered route entry (`layer.ts` `Layer`): path pattern, computed
method set, optional name, options, handler stack (handlers as opaque ids),
and the compiled matcher. -/
structure LayerVal where
  path : String
  methods : List HTTPMethod
  name : Option String
  opts : LOpts
  handlers : List Nat
  compiled : CompiledPath

/-- `Layer.match` (`layer.ts`, lines 76-78): test the compiled matcher. -/
def LayerVal.matchPath (l : LayerVal) (path : String) : Bool :=
  l.compiled.test path

/-- `Layer.setPrefix` (`layer.ts`, lines 123-131): when the path is
non-empty, rewrite it to `prefix + path` (or just the prefix when the path
is exactly `/` and `strict` is off), clear the parameter names and
recompile the matcher. -/
def LayerVal.setPfx (compile : String → LOpts → CompiledPath) (pfx : String)
    (l : LayerVal) : LayerVal :=
  if l.path ≠ "" then
    let newPath := if l.path ≠ "/" ∨ l.opts.strict then pfx ++ l.path else pfx
    { l with path := newPath, compiled := compile newPath l.opts }
  else l

/-- The result record of `Router.match` (`router.ts`, lines 499-503). -/
structure MatchResult where
  mpath : List LayerVal
  pathAndMethod : List LayerVal
  route : Bool

/-- One iteration of the `Router.match` scan (`router.ts`, lines 505-518):
a path match is recorded in `mpath`; a layer whose method set is empty or
contains the request method is additionally recorded in `pathAndMethod`,
and sets `route` when its method set is non-empty. -/
def routerMatchStep (path : String) (method : HTTPMethod) (m : MatchResult)
    (l : LayerVal) : MatchResult :=
  if l.matchPath path then
    let m1 : MatchResult := { m with mpath := m.mpath ++ [l] }
    if l.methods.length = 0 ∨ method ∈ l.methods then
      { m1 with
        pathAndMethod := m1.pathAndMethod ++ [l]
        route := m1.route || !l.methods.isEmpty }
    else m1
  else m

/-- `Router.match` (`router.ts`, lines 495-521): scan the layer stack in
registration order. -/
def routerMatch (stack : List LayerVal) (path : String) (method : HTTPMethod) :
    MatchResult :=
  stack.foldl (routerMatchStep path method)
    { mpath := [], pathAndMethod := [], route := false }

/-- An entry of the dispatch chain `routes()` builds: the param-binding
frame a layer contributes, or one of its own handlers. -/
inductive ChainEntry where
  | bindFrame (l : LayerVal)
  | handlerE (h : Nat)

/-- The chain-building reduce of `Router.routes` (`router.ts`, lines
244-257): each matched layer contributes its param-binding frame followed
by its own handler stack. -/
def routesLayerChain (matchedLayers : List LayerVal) : List ChainEntry :=
  matchedLayers.foldl
    (fun memo l => (memo ++ [ChainEntry.bindFrame l]) ++ l.handlers.map ChainEntry.handlerE)
    []

/-- Options of `Router.allowedMethods` (`router.ts` `AllowedMethodOptions`);
the custom `notImplemented`/`methodNotAllowed` factory callbacks replace the
default thrown conditions and are not modelled beyond the thrown tag. -/
structure AllowedMethodOptions where
  thr : Bool
deriving DecidableEq, Repr

/-- The conditions `allowedMethods` throws in `throw` mode. -/
inductive AllowedErr where
  | notImplementedE
  | methodNotAllowedE
deriving DecidableEq, Repr

/-- The `Allow` union computed by `allowedMethods` (`router.ts`, lines
315-328): first-insertion-ordered union of the method names of all matched
layers (JavaScript object keys). -/
def allowedUnion (matched : Option (List LayerVal)) : List String :=
  match matched with
  | none => []
  | some ls =>
    ls.foldl
      (fun acc l =>
        l.methods.foldl
          (fun acc2 m =>
            let s := methodStr m
            if s ∈ acc2 then acc2 else acc2 ++ [s])
          acc)
      []

/-- The body of the middleware returned by `Router.allowedMethods`
(`router.ts`, lines 306-369), after the downstream chain resolved with
`response`: `.ok none` models the JavaScript function falling through and
returning `undefined`; `.error` models the conditions thrown in `throw`
mode. -/
def allowedMethodsCore (implemented : List HTTPMethod) (opts : AllowedMethodOptions)
    (matched : Option (List LayerVal)) (method : HTTPMethod) (response : IResponse) :
    Except AllowedErr (Option IResponse) :=
  if response.status = none ∨ response.status = some 404 then
    let allowedArr := allowedUnion matched
    if !implemented.contains method then
      if opts.thr then .error .notImplementedE
      else
        .ok (some
          { status := some 501, statusText := none
            headers := [("Allow", String.intercalate ", " allowedArr)]
            body := .noneB, hasWsCb := false })
    else if allowedArr.length ≠ 0 then
      if method = .OPTIONS then
        .ok (some
          { status := some 200, statusText := none
            headers := [("Allow", String.intercalate ", " allowedArr)]
            body := .noneB, hasWsCb := false })
      else if !allowedArr.contains (methodStr method) then
        if opts.thr then .error .methodNotAllowedE
        else
          .ok (some
            { status := some 405, statusText := none
              headers := [("Allow", String.intercalate ", " allowedArr)]
              body := .noneB, hasWsCb := false })
      else .ok none
    else .ok none
  else .ok none

/-- A router as stored on the heap model used for mounting: its prefix
option and its layer stack as a list of arena indices. -/
structure RouterH where
  pfx : Option String
  stack : List Nat

/-- `Router.use` applied to another router's dispatcher (`router.ts`, lines
159-173): every layer of the mounted router is shallow-copied, re-prefixed
with the explicit mount path (when truthy) and then with the parent prefix
(when truthy), appended to the layer arena as a fresh object, and its index
pushed onto the parent stack. -/
def mountClone (compile : String → LOpts → CompiledPath)
    (mountPath parentPfx : Option String) (nestedLayer : LayerVal) : LayerVal :=
  let c2 :=
    match mountPath with
    | some p => if p ≠ "" then nestedLayer.setPfx compile p else nestedLayer
    | none => nestedLayer
  match parentPfx with
  | some rp => if rp ≠ "" then c2.setPfx compile rp else c2
  | none => c2

/-- One iteration of the mount loop: read the child layer, clone and
re-prefix it, append it to the arena and push its index on the parent. -/
def mountStep (compile : String → LOpts → CompiledPath)
    (mountPath parentPfx : Option String) (acc : List LayerVal × RouterH)
    (lid : Nat) : List LayerVal × RouterH :=
  match acc.1[lid]? with
  | none => acc
  | some nestedLayer =>
    (acc.1 ++ [mountClone compile mountPath parentPfx nestedLayer],
      { acc.2 with stack := acc.2.stack ++ [acc.1.length] })

/-- `Router.use` applied to another router's dispatcher iterates
`mountStep` over the mounted child's layer list. -/
def mountUse (compile : String → LOpts → CompiledPath) (arena : List LayerVal)
    (parent : RouterH) (child : RouterH) (mountPath : Option String) :
    List LayerVal × RouterH :=
  child.stack.foldl (mountStep compile mountPath parent.pfx) (arena, parent)

/-- A later mutation of the child router's layer stack: registering a new
layer, removing one, or replacing one with a newly created layer. -/
inductive ChildOp where
  | add (v : LayerVal)
  | removeAt (i : Nat)
  | replaceAt (i : Nat) (v : LayerVal)

/-- Apply one stack mutation: new layers are fresh arena objects; removal
and replacement edit only the router's own index list. -/
def applyChildOp (s : List LayerVal × RouterH) (op : ChildOp) :
    List LayerVal × RouterH :=
  match op with
  | .add v => (s.1 ++ [v], { s.2 with stack := s.2.stack ++ [s.1.length] })
  | .removeAt i => (s.1, { s.2 with stack := s.2.stack.eraseIdx i })
  | .replaceAt i v => (s.1 ++ [v], { s.2 with stack := s.2.stack.set i s.1.length })

/-- Apply a sequence of child-stack mutations. -/
def applyChildOps (s : List LayerVal × RouterH) (ops : List ChildOp) :
    List LayerVal × RouterH :=
  ops.foldl applyChildOp s

/-- The layers a router's stack denotes on a given arena. -/
def resolvedStack (arena : List LayerVal) (r : RouterH) : List (Option LayerVal) :=
  r.stack.map (fun i => arena[i]?)


/-- A trivial concrete path compiler for concrete instantiations. -/
def sampleCompile : String → LOpts → CompiledPath :=
  fun _ _ => { test := fun _ => false, keys := [] }

/-- A concrete layer for concrete instantiations. -/
def sampleLayer : LayerVal :=
  { path := "/x", methods := [.GET], name := none
    opts := { sensitive := false, strict := false, endFlag := true, ignoreCaptures := false }
    handlers := [0]
    compiled := { test := fun _ => false, keys := [] } }

/-- A concrete one-layer router for concrete instantiations. -/
def sampleRouter : RouterH := { pfx := none, stack := [0] }

/-- The error message of `compose`'s double-dispatch guard
(`middleware.ts`, line 39). -/
def nextMultipleMsg : String := "next() called multiple times"

/-- First-order model of what one middleware invocation does with its
continuation: resolve with a response, reject with an error, return
`next()` directly, await `next()` and continue, or run another composed
chain (re-entrant composition) and return its result. -/
inductive Prog where
  | done (r : IResponse)
  | failP (e : String)
  | retNext
  | seqNext (rest : Prog)
  | subChain (inner : List Prog)

/-- One activation of a composed chain (`middleware.ts`, lines 34-52): its
middleware array, the optional externally supplied terminal continuation
(only meaningful for the outermost activation), and the mutable dispatch
index `index` of that invocation (initially `-1`). -/
structure Frame where
  mws : List Prog
  topTerm : Option Prog
  idx : Int

/-- Two activation frames with the same chain and terminal (only the
dispatch index may differ). -/
def frameShapeEq (F G : Frame) : Prop :=
  F.mws = G.mws ∧ F.topTerm = G.topTerm

/-- Execution-step relation on interpreter states: shapes are preserved and
every dispatch index is monotonically non-decreasing. -/
def stepOK (S S2 : Frame × List (Nat × Frame)) : Prop :=
  frameShapeEq S.1 S2.1 ∧ S.1.idx ≤ S2.1.idx ∧
    List.Forall₂ (fun a b : Nat × Frame =>
      a.1 = b.1 ∧ frameShapeEq a.2 b.2 ∧ a.2.idx ≤ b.2.idx) S.2 S2.2

/-- The bottom-most (outermost) frame of an interpreter state. -/
def bottomFrame (S : Frame × List (Nat × Frame)) : Frame :=
  match S.2.getLast? with
  | some q => q.2
  | none => S.1

mutual

/-- `dispatch(i)` of `compose` (`middleware.ts`, lines 38-52) for the
current frame, with the stack of enclosing activations: reject when
`i <= index`; otherwise set `index := i`, pick `middlewares[i]` (or, at
`i == middlewares.length`, the terminal: the supplied `next` for the
outermost activation, the enclosing activation's continuation otherwise;
past the end, resolve with `{}`). Fuel-indexed; `none` is fuel exhaustion. -/
def execDispatch : Nat → Frame → List (Nat × Frame) → Nat →
    Option ((Frame × List (Nat × Frame)) × Except String IResponse)
  | 0, _, _, _ => none
  | fuel + 1, F, ps, i =>
    if (i : Int) ≤ F.idx then some ((F, ps), .error nextMultipleMsg)
    else
      let F1 : Frame := { F with idx := (i : Int) }
      match F.mws[i]? with
      | some p => execProg fuel F1 ps p (i + 1)
      | none =>
        if i = F.mws.length then
          match ps with
          | [] =>
            match F.topTerm with
            | some t => execProg fuel F1 [] t (i + 1)
            | none => some ((F1, []), .ok emptyIResponse)
          | (j, pf) :: rest =>
            match execDispatch fuel pf rest j with
            | some ((pf2, rest2), res) => some ((F1, (j, pf2) :: rest2), res)
            | none => none
        else some ((F1, ps), .ok emptyIResponse)

/-- Run one middleware program whose `next` is `dispatch j` of the current
frame. A `subChain` pushes a fresh activation whose `index` starts at `-1`
and whose terminal continuation resumes the current frame at `j`, exactly
as a composed chain used as a middleware receives `dispatch.bind(null, i + 1)`
as its `next`. -/
def execProg : Nat → Frame → List (Nat × Frame) → Prog → Nat →
    Option ((Frame × List (Nat × Frame)) × Except String IResponse)
  | 0, _, _, _, _ => none
  | fuel + 1, F, ps, p, j =>
    match p with
    | .done r => some ((F, ps), .ok r)
    | .failP e => some ((F, ps), .error e)
    | .retNext => execDispatch fuel F ps j
    | .seqNext rest =>
      match execDispatch fuel F ps j with
      | some ((F2, ps2), .ok _) => execProg fuel F2 ps2 rest j
      | some (S2, .error e) => some (S2, .error e)
      | none => none
    | .subChain inner =>
      match execDispatch fuel { mws := inner, topTerm := none, idx := -1 } ((j, F) :: ps) 0 with
      | some ((_, (_, F2) :: ps2), res) => some ((F2, ps2), res)
      | some ((_, []), _) => none
      | none => none

end

/-- One invocation of the handler `compose(...middlewares)` returns
(`middleware.ts`, lines 34-37): every middleware receives the same context,
the dispatch index is fresh (`-1`), and execution starts at `dispatch(0)`. -/
def composeRun {Ctx : Type} (middlewares : List (Ctx → Prog))
    (next : Option (Ctx → Prog)) (context : Ctx) (fuel : Nat) :
    Option ((Frame × List (Nat × Frame)) × Except String IResponse) :=
  execDispatch fuel
    { mws := middlewares.map (fun m => m context)
      topTerm := next.map (fun m => m context)
      idx := -1 }
    [] 0

section Lemmas

/-- Deleting a header makes `has` of that header false. -/
lemma hHas_hDelete_self (h : List (String × String)) (k : String) :
    hHas (hDelete h k) k = false := by
  induction h with
  | nil => rfl
  | cons p t ih =>
    by_cases hp : p.1 = lowerStr k
    · simp only [hHas, hDelete] at ih
      simp [hHas, hDelete, hp, ih]
    · simp only [hHas, hDelete] at ih
      simp [hHas, hDelete, hp, ih]

/-- Deleting one header cannot make another `has` check become true. -/
lemma hHas_hDelete_false (h : List (String × String)) (k k2 : String)
    (hf : hHas h k = false) : hHas (hDelete h k2) k = false := by
  induction h with
  | nil => rfl
  | cons p t ih =>
    simp only [hHas, hDelete, List.any_cons, Bool.or_eq_false_iff] at hf
    by_cases hp : p.1 = lowerStr k2
    · simpa [hHas, hDelete, hp] using ih hf.2
    · have := ih hf.2
      simpa [hHas, hDelete, hp, hf.1] using this

/-- `layerMethods` accumulator lemma: the fold yields `HEAD` whenever the
remaining input has a `GET` or the accumulator already holds `HEAD`. -/
lemma layerMethods_fold_head (ms : List HTTPMethod) :
    ∀ acc : List HTTPMethod, (HTTPMethod.GET ∈ ms ∨ HTTPMethod.HEAD ∈ acc) →
      HTTPMethod.HEAD ∈
        ms.foldl (fun acc m =>
          let acc2 := acc ++ [m]
          if m = .GET then .HEAD :: acc2 else acc2) acc := by
  induction ms with
  | nil =>
    intro acc h
    rcases h with h | h
    · exact absurd h (List.not_mem_nil _)
    · simpa using h
  | cons m t ih =>
    intro acc h
    simp only [List.foldl_cons]
    by_cases hm : m = HTTPMethod.GET
    · exact ih _ (Or.inr (by simp [hm]))
    · rcases h with h | h
      · rcases List.mem_cons.mp h with h | h
        · exact absurd h.symm hm
        · exact ih _ (Or.inl h)
      · exact ih _ (Or.inr (by simp [hm, List.mem_append, h]))

end Lemmas

/-- The mount fold only appends fresh objects to the arena, only appends
fresh indices to the parent stack, and those indices point into the newly
appended arena region. -/
lemma mount_fold_spec (compile : String → LOpts → CompiledPath)
    (mp pp : Option String) :
    ∀ (ids : List Nat) (acc : List LayerVal × RouterH),
      ∃ ext newIds,
        (List.foldl (mountStep compile mp pp) acc ids).1 = acc.1 ++ ext ∧
        (List.foldl (mountStep compile mp pp) acc ids).2.stack =
          acc.2.stack ++ newIds ∧
        (List.foldl (mountStep compile mp pp) acc ids).2.pfx = acc.2.pfx ∧
        ∀ id ∈ newIds, acc.1.length ≤ id ∧
          id < (List.foldl (mountStep compile mp pp) acc ids).1.length := by
  intro ids
  induction ids with
  | nil =>
    intro acc
    exact ⟨[], [], by simp, by simp, rfl, by simp⟩
  | cons lid t ih =>
    intro acc
    rw [List.foldl_cons]
    obtain ⟨ext, newIds, h1, h2, h3, h4⟩ := ih (mountStep compile mp pp acc lid)
    rcases hl : acc.1[lid]? with _ | lv
    · have hstep : mountStep compile mp pp acc lid = acc := by
        simp [mountStep, hl]
      rw [hstep] at h1 h2 h3 h4 ⊢
      exact ⟨ext, newIds, h1, h2, h3, h4⟩
    · have hstep : mountStep compile mp pp acc lid =
          (acc.1 ++ [mountClone compile mp pp lv],
            { acc.2 with stack := acc.2.stack ++ [acc.1.length] }) := by
        simp [mountStep, hl, mountClone]
      rw [hstep] at h1 h2 h3 h4 ⊢
      refine ⟨mountClone compile mp pp lv :: ext, acc.1.length :: newIds, ?_, ?_, h3, ?_⟩
      · simpa using h1
      · simpa using h2
      · intro id hid
        rcases List.mem_cons.mp hid with hid | hid
        · subst hid
          constructor
          · exact le_refl _
          · rw [h1]
            simp
        · obtain ⟨ha, hb⟩ := h4 id hid
          constructor
          · simp at ha
            omega
          · exact hb

/-- Child-stack mutations only append to the arena. -/
lemma applyChildOps_arena :
    ∀ (ops : List ChildOp) (s : List LayerVal × RouterH),
      ∃ ext, (applyChildOps s ops).1 = s.1 ++ ext := by
  intro ops
  induction ops with
  | nil => intro s; exact ⟨[], by simp [applyChildOps]⟩
  | cons op t ih =>
    intro s
    obtain ⟨ext, h⟩ := ih (applyChildOp s op)
    have hfold : applyChildOps s (op :: t) = applyChildOps (applyChildOp s op) t := by
      simp [applyChildOps]
    rcases op with v | i | ⟨i, v⟩
    · refine ⟨v :: ext, ?_⟩
      rw [hfold, h]
      simp [applyChildOp]
    · refine ⟨ext, ?_⟩
      rw [hfold, h]
      simp [applyChildOp]
    · refine ⟨v :: ext, ?_⟩
      rw [hfold, h]
      simp [applyChildOp]

/-- A router whose indices are in range resolves identically on any
extension of the arena. -/
lemma resolvedStack_ext (arena ext : List LayerVal) (r : RouterH)
    (h : ∀ id ∈ r.stack, id < arena.length) :
    resolvedStack (arena ++ ext) r = resolvedStack arena r := by
  unfold resolvedStack
  exact List.map_congr_left (fun id hid => List.getElem?_append_left (h id hid))

/-- C8: mounting a child router's dispatcher into a parent pushes fresh
shallow copies of the child's layers (re-prefixed) onto the parent; after
the mount, any sequence of additions, removals or replacements on the child
router's stack leaves the parent's resolved layer stack unchanged (and the
same holds after a second mount), and the copies created by two mounts of
the same child are mutually disjoint fresh objects. -/
theorem claim_C8 (compile : String → LOpts → CompiledPath) (arena : List LayerVal)
    (parent child : RouterH) (mp1 mp2 : Option String) (ops1 ops2 : List ChildOp)
    (hpw : ∀ id ∈ parent.stack, id < arena.length) :
    (resolvedStack
        (applyChildOps ((mountUse compile arena parent child mp1).1, child) ops1).1
        (mountUse compile arena parent child mp1).2 =
      resolvedStack (mountUse compile arena parent child mp1).1
        (mountUse compile arena parent child mp1).2) ∧
    (resolvedStack
        (applyChildOps
          ((mountUse compile (mountUse compile arena parent child mp1).1
              (mountUse compile arena parent child mp1).2 child mp2).1, child) ops2).1
        (mountUse compile (mountUse compile arena parent child mp1).1
          (mountUse compile arena parent child mp1).2 child mp2).2 =
      resolvedStack
        (mountUse compile (mountUse compile arena parent child mp1).1
          (mountUse compile arena parent child mp1).2 child mp2).1
        (mountUse compile (mountUse compile arena parent child mp1).1
          (mountUse compile arena parent child mp1).2 child mp2).2) ∧
    List.Disjoint
      ((mountUse compile arena parent child mp1).2.stack.drop parent.stack.length)
      ((mountUse compile (mountUse compile arena parent child mp1).1
          (mountUse compile arena parent child mp1).2 child mp2).2.stack.drop
        (mountUse compile arena parent child mp1).2.stack.length) := by
  obtain ⟨ext1, new1, ha1, hs1, hx1, hb1⟩ :=
    mount_fold_spec compile mp1 parent.pfx child.stack (arena, parent)
  have hm1a : (mountUse compile arena parent child mp1).1 = arena ++ ext1 := ha1
  have hm1s : (mountUse compile arena parent child mp1).2.stack =
      parent.stack ++ new1 := hs1
  have hb1m : ∀ id ∈ new1, arena.length ≤ id ∧
      id < (mountUse compile arena parent child mp1).1.length := hb1
  have hw1 : ∀ id ∈ (mountUse compile arena parent child mp1).2.stack,
      id < (mountUse compile arena parent child mp1).1.length := by
    intro id hid
    rw [hm1s] at hid
    rcases List.mem_append.mp hid with hid | hid
    · rw [hm1a]
      have := hpw id hid
      simp
      omega
    · exact (hb1m id hid).2
  obtain ⟨ext2, new2, ha2, hs2, hx2, hb2⟩ :=
    mount_fold_spec compile mp2 (mountUse compile arena parent child mp1).2.pfx
      child.stack ((mountUse compile arena parent child mp1).1,
        (mountUse compile arena parent child mp1).2)
  have hm2a : (mountUse compile (mountUse compile arena parent child mp1).1
      (mountUse compile arena parent child mp1).2 child mp2).1 =
      (mountUse compile arena parent child mp1).1 ++ ext2 := ha2
  have hm2s : (mountUse compile (mountUse compile arena parent child mp1).1
      (mountUse compile arena parent child mp1).2 child mp2).2.stack =
      (mountUse compile arena parent child mp1).2.stack ++ new2 := hs2
  have hb2m : ∀ id ∈ new2, (mountUse compile arena parent child mp1).1.length ≤ id ∧
      id < (mountUse compile (mountUse compile arena parent child mp1).1
        (mountUse compile arena parent child mp1).2 child mp2).1.length := hb2
  have hw2 : ∀ id ∈ (mountUse compile (mountUse compile arena parent child mp1).1
      (mountUse compile arena parent child mp1).2 child mp2).2.stack,
      id < (mountUse compile (mountUse compile arena parent child mp1).1
        (mountUse compile arena parent child mp1).2 child mp2).1.length := by
    intro id hid
    rw [hm2s] at hid
    rcases List.mem_append.mp hid with hid | hid
    · have h1 := hw1 id hid
      rw [hm2a]
      simp
      omega
    · exact (hb2m id hid).2
  refine ⟨?_, ?_, ?_⟩
  · obtain ⟨extO, hO⟩ :=
      applyChildOps_arena ops1 ((mountUse compile arena parent child mp1).1, child)
    rw [hO]
    exact resolvedStack_ext _ _ _ hw1
  · obtain ⟨extO, hO⟩ :=
      applyChildOps_arena ops2
        ((mountUse compile (mountUse compile arena parent child mp1).1
            (mountUse compile arena parent child mp1).2 child mp2).1, child)
    rw [hO]
    exact resolvedStack_ext _ _ _ hw2
  · intro id hid1 hid2
    rw [hm1s, List.drop_left] at hid1
    have hlt : id < (mountUse compile arena parent child mp1).1.length :=
      (hb1m id hid1).2
    rw [hm2s, List.drop_left] at hid2
    have hge : (mountUse compile arena parent child mp1).1.length ≤ id :=
      (hb2m id hid2).1
    omega

/-- Witness for C8 at a one-layer child mounted twice and then mutated. -/
theorem claim_C8_witness :
    (∀ id ∈ sampleRouter.stack, id < [sampleLayer].length) ∧
    ((resolvedStack
        (applyChildOps
          ((mountUse sampleCompile [sampleLayer] sampleRouter sampleRouter
              (some "/a")).1, sampleRouter) [ChildOp.removeAt 0]).1
        (mountUse sampleCompile [sampleLayer] sampleRouter sampleRouter
          (some "/a")).2 =
      resolvedStack
        (mountUse sampleCompile [sampleLayer] sampleRouter sampleRouter
          (some "/a")).1
        (mountUse sampleCompile [sampleLayer] sampleRouter sampleRouter
          (some "/a")).2) ∧
    (resolvedStack
        (applyChildOps
          ((mountUse sampleCompile
              (mountUse sampleCompile [sampleLayer] sampleRouter sampleRouter
                (some "/a")).1
              (mountUse sampleCompile [sampleLayer] sampleRouter sampleRouter
                (some "/a")).2 sampleRouter (some "/b")).1, sampleRouter)
          ([] : List ChildOp)).1
        (mountUse sampleCompile
          (mountUse sampleCompile [sampleLayer] sampleRouter sampleRouter
            (some "/a")).1
          (mountUse sampleCompile [sampleLayer] sampleRouter sampleRouter
            (some "/a")).2 sampleRouter (some "/b")).2 =
      resolvedStack
        (mountUse sampleCompile
          (mountUse sampleCompile [sampleLayer] sampleRouter sampleRouter
            (some "/a")).1
          (mountUse sampleCompile [sampleLayer] sampleRouter sampleRouter
            (some "/a")).2 sampleRouter (some "/b")).1
        (mountUse sampleCompile
          (mountUse sampleCompile [sampleLayer] sampleRouter sampleRouter
            (some "/a")).1
          (mountUse sampleCompile [sampleLayer] sampleRouter sampleRouter
            (some "/a")).2 sampleRouter (some "/b")).2) ∧
    List.Disjoint
      ((mountUse sampleCompile [sampleLayer] sampleRouter sampleRouter
          (some "/a")).2.stack.drop sampleRouter.stack.length)
      ((mountUse sampleCompile
          (mountUse sampleCompile [sampleLayer] sampleRouter sampleRouter
            (some "/a")).1
          (mountUse sampleCompile [sampleLayer] sampleRouter sampleRouter
            (some "/a")).2 sampleRouter (some "/b")).2.stack.drop
        (mountUse sampleCompile [sampleLayer] sampleRouter sampleRouter
          (some "/a")).2.stack.length)) := by
  have hpw : ∀ id ∈ sampleRouter.stack, id < [sampleLayer].length := by
    intro id h
    simp [sampleRouter] at h
    subst h
    simp
  exact ⟨hpw, claim_C8 sampleCompile [sampleLayer] sampleRouter sampleRouter
    (some "/a") (some "/b") [ChildOp.removeAt 0] ([] : List ChildOp) hpw⟩


/-- The `mpath` field of one match step. -/
lemma routerMatchStep_mpath (path : String) (method : HTTPMethod)
    (m : MatchResult) (l : LayerVal) :
    (routerMatchStep path method m l).mpath =
      if l.matchPath path then m.mpath ++ [l] else m.mpath := by
  unfold routerMatchStep
  by_cases h : l.matchPath path
  · simp only [h, if_true]
    split <;> rfl
  · simp [h]

/-- The `pathAndMethod` field of one match step. -/
lemma routerMatchStep_pam (path : String) (method : HTTPMethod)
    (m : MatchResult) (l : LayerVal) :
    (routerMatchStep path method m l).pathAndMethod =
      if l.matchPath path && (l.methods.isEmpty || l.methods.contains method) then
        m.pathAndMethod ++ [l]
      else m.pathAndMethod := by
  unfold routerMatchStep
  by_cases h1 : l.matchPath path = true
  · by_cases h2 : l.methods.length = 0 ∨ method ∈ l.methods
    · have hb : (l.matchPath path && (l.methods.isEmpty || l.methods.contains method)) = true := by
        rcases h2 with h2 | h2
        · simp [h1, List.isEmpty_iff, List.length_eq_zero.mp h2]
        · simp [h1, h2]
      rw [if_pos h1, if_pos h2, if_pos hb]
    · have hb : (l.matchPath path && (l.methods.isEmpty || l.methods.contains method)) = false := by
        push_neg at h2
        have hne : l.methods ≠ [] := fun hn => h2.1 (by simp [hn])
        simp [List.isEmpty_iff, hne, h2.2]
      rw [if_pos h1, if_neg h2, if_neg (show ¬((l.matchPath path &&
        (l.methods.isEmpty || l.methods.contains method)) = true) by rw [hb]; simp)]
  · have hb : (l.matchPath path && (l.methods.isEmpty || l.methods.contains method)) = false := by
      simp [Bool.not_eq_true] at h1
      simp [h1]
    rw [if_neg h1, if_neg (show ¬((l.matchPath path &&
      (l.methods.isEmpty || l.methods.contains method)) = true) by rw [hb]; simp)]

/-- The `Router.match` fold accumulates exactly the order-preserving
filters of the stack. -/
lemma routerMatch_fold (path : String) (method : HTTPMethod) :
    ∀ (stack : List LayerVal) (m0 : MatchResult),
      (List.foldl (routerMatchStep path method) m0 stack).mpath =
        m0.mpath ++ stack.filter (fun l => l.matchPath path) ∧
      (List.foldl (routerMatchStep path method) m0 stack).pathAndMethod =
        m0.pathAndMethod ++ stack.filter (fun l =>
          l.matchPath path && (l.methods.isEmpty || l.methods.contains method)) := by
  intro stack
  induction stack with
  | nil => intro m0; simp
  | cons l t ih =>
    intro m0
    rw [List.foldl_cons, List.filter_cons, List.filter_cons]
    obtain ⟨ihp, ihpm⟩ := ih (routerMatchStep path method m0 l)
    constructor
    · rw [ihp, routerMatchStep_mpath]
      by_cases h : l.matchPath path = true
      · rw [if_pos h, if_pos h, List.append_assoc, List.singleton_append]
      · rw [if_neg h, if_neg h]
    · rw [ihpm, routerMatchStep_pam]
      by_cases h : (l.matchPath path && (l.methods.isEmpty || l.methods.contains method)) = true
      · rw [if_pos h, if_pos h, List.append_assoc, List.singleton_append]
      · rw [if_neg h, if_neg h]

/-- The chain-building reduce of `routes()` appended to a memo. -/
lemma routesLayerChain_fold :
    ∀ (ls : List LayerVal) (memo : List ChainEntry),
      ls.foldl
        (fun memo l =>
          (memo ++ [ChainEntry.bindFrame l]) ++ l.handlers.map ChainEntry.handlerE)
        memo =
      memo ++ ls.flatMap
        (fun l => ChainEntry.bindFrame l :: l.handlers.map ChainEntry.handlerE) := by
  intro ls
  induction ls with
  | nil => intro memo; simp
  | cons l t ih =>
    intro memo
    simp only [List.foldl_cons, List.flatMap_cons, ih]
    simp

/-- C2: `Router.match` returns the matched-by-path layers and the
matched-by-path-and-method layers as the order-preserving filters of the
registration-ordered stack (path match = compiled matcher accepts; method
match = empty method set or containment of the request method), and the
dispatch chain built by `routes()` lists, in exactly that registration
order, each matching layer's param-binding frame followed by its own
handlers. -/
theorem claim_C2 (stack : List LayerVal) (path : String) (method : HTTPMethod) :
    (routerMatch stack path method).mpath =
      stack.filter (fun l => l.matchPath path) ∧
    (routerMatch stack path method).pathAndMethod =
      stack.filter (fun l =>
        l.matchPath path && (l.methods.isEmpty || l.methods.contains method)) ∧
    routesLayerChain ((routerMatch stack path method).pathAndMethod) =
      (stack.filter (fun l =>
        l.matchPath path && (l.methods.isEmpty || l.methods.contains method))).flatMap
        (fun l => ChainEntry.bindFrame l :: l.handlers.map ChainEntry.handlerE) := by
  obtain ⟨hp, hpm⟩ := routerMatch_fold path method stack
    { mpath := [], pathAndMethod := [], route := false }
  have hp2 : (routerMatch stack path method).mpath =
      stack.filter (fun l => l.matchPath path) := by
    rw [routerMatch, hp]; rfl
  have hpm2 : (routerMatch stack path method).pathAndMethod =
      stack.filter (fun l =>
        l.matchPath path && (l.methods.isEmpty || l.methods.contains method)) := by
    rw [routerMatch, hpm]; rfl
  refine ⟨hp2, hpm2, ?_⟩
  rw [hpm2, routesLayerChain, routesLayerChain_fold]
  rfl


/-- Looking up a key in the overwrite map of `pSet` when the key occurs. -/
lemma find_map_overwrite_self (m : List (String × String)) (k v : String)
    (hany : m.any (fun q => q.1 = k) = true) :
    (m.map (fun q => if q.1 = k then (k, v) else q)).find?
      (fun q => q.1 = k) = some (k, v) := by
  induction m with
  | nil => simp at hany
  | cons p t ih =>
    by_cases hp : p.1 = k
    · simp only [List.map_cons, if_pos hp]
      exact List.find?_cons_of_pos _ (by simp)
    · simp only [List.any_cons, Bool.or_eq_true, decide_eq_true_eq] at hany
      rcases hany with h | h
      · exact absurd h hp
      · simp only [List.map_cons, if_neg hp]
        rw [List.find?_cons_of_neg _ (by simp [hp])]
        exact ih h

/-- The overwrite map of `pSet` does not disturb lookups of other keys. -/
lemma find_map_overwrite_other (m : List (String × String)) (k v k2 : String)
    (hne : k2 ≠ k) :
    (m.map (fun q => if q.1 = k then (k, v) else q)).find?
      (fun q => q.1 = k2) = m.find? (fun q => q.1 = k2) := by
  induction m with
  | nil => simp
  | cons p t ih =>
    by_cases hp : p.1 = k
    · simp only [List.map_cons, if_pos hp]
      rw [List.find?_cons_of_neg _ (by simp only [decide_eq_true_eq]; exact fun h => hne h.symm),
        List.find?_cons_of_neg _ (by rw [hp]; simp only [decide_eq_true_eq]; exact fun h => hne h.symm), ih]
    · simp only [List.map_cons, if_neg hp]
      by_cases hp2 : p.1 = k2
      · rw [List.find?_cons_of_pos _ (by simp [hp2]),
          List.find?_cons_of_pos _ (by simp [hp2])]
      · rw [List.find?_cons_of_neg _ (by simp [hp2]),
          List.find?_cons_of_neg _ (by simp [hp2]), ih]

/-- If no entry of `m` has key `k2`, `find?` on `m ++ l2` skips to `l2`. -/
lemma find_append_of_none (m l2 : List (String × String)) (k2 : String)
    (hm : m.find? (fun q => q.1 = k2) = none) :
    (m ++ l2).find? (fun q => q.1 = k2) = l2.find? (fun q => q.1 = k2) := by
  induction m with
  | nil => simp
  | cons p t ih =>
    by_cases hp2 : p.1 = k2
    · rw [List.find?_cons_of_pos _ (by simp [hp2])] at hm
      exact absurd hm (by simp)
    · rw [List.find?_cons_of_neg _ (by simp [hp2])] at hm
      rw [List.cons_append, List.find?_cons_of_neg _ (by simp [hp2])]
      exact ih hm

/-- `find?` distributes over append when the first part has a hit. -/
lemma find_append_of_some (m l2 : List (String × String)) (k2 : String)
    (q0 : String × String) (hm : m.find? (fun q => q.1 = k2) = some q0) :
    (m ++ l2).find? (fun q => q.1 = k2) = some q0 := by
  induction m with
  | nil => simp at hm
  | cons p t ih =>
    by_cases hp2 : p.1 = k2
    · rw [List.find?_cons_of_pos _ (by simp [hp2])] at hm
      rw [List.cons_append, List.find?_cons_of_pos _ (by simp [hp2])]
      exact hm
    · rw [List.find?_cons_of_neg _ (by simp [hp2])] at hm
      rw [List.cons_append, List.find?_cons_of_neg _ (by simp [hp2])]
      exact ih hm

/-- Absence of a key as seen by `any` gives `find? = none`. -/
lemma find_none_of_any_false (m : List (String × String)) (k : String)
    (hany : m.any (fun q => q.1 = k) = false) :
    m.find? (fun q => q.1 = k) = none := by
  induction m with
  | nil => simp
  | cons p t ih =>
    simp only [List.any_cons, Bool.or_eq_false_iff, decide_eq_false_iff_not] at hany
    rw [List.find?_cons_of_neg _ (by simp [hany.1])]
    exact ih (by rw [List.any_eq] at hany ⊢; exact hany.2)

/-- Full lookup characterization of JavaScript-object assignment. -/
lemma pLookup_pSet (m : List (String × String)) (k v k2 : String) :
    pLookup (pSet m k v) k2 = if k2 = k then some v else pLookup m k2 := by
  by_cases hany : m.any (fun q => q.1 = k) = true
  · have hset : pSet m k v = m.map (fun q => if q.1 = k then (k, v) else q) := by
      simp only [pSet, if_pos hany]
    rw [hset]
    by_cases hk : k2 = k
    · subst hk
      simp [pLookup, find_map_overwrite_self m k2 v hany]
    · simp [pLookup, find_map_overwrite_other m k v k2 hk, hk]
  · have hset : pSet m k v = m ++ [(k, v)] := by
      simp only [pSet, if_neg hany]
    rw [hset]
    have hnone := find_none_of_any_false m k (Bool.eq_false_iff.mpr hany)
    by_cases hk : k2 = k
    · subst hk
      rw [pLookup, find_append_of_none m _ _ hnone]
      simp
    · rw [pLookup, pLookup]
      rcases hfind : m.find? (fun q => q.1 = k2) with _ | q0
      · rw [find_append_of_none m _ _ hfind,
          List.find?_cons_of_neg _ (by simp only [decide_eq_true_eq]; exact fun h => hk h.symm)]
        simp [hk, hfind]
      · rw [find_append_of_some m _ _ _ hfind]
        simp [hk, hfind]

/-- The binding loop of `Layer.params` leaves keys it never binds alone. -/
lemma paramsGo_untouched (names : List String) :
    ∀ (cs : List String) (i : Nat) (m : List (String × String)) (k : String),
      (∀ j, i ≤ j → j < i + cs.length → names[j]? ≠ some k) →
      pLookup (paramsGo names i cs m) k = pLookup m k := by
  intro cs
  induction cs with
  | nil => intro i m k _; rfl
  | cons c t ih =>
    intro i m k hnone
    rw [paramsGo]
    rcases hni : names[i]? with _ | nm
    · exact ih (i + 1) m k (fun j h1 h2 => hnone j (by omega) (by simp; omega))
    · have hk : nm ≠ k := by
        intro h
        exact hnone i (le_refl i) (by simp) (by rw [hni, h])
      rw [ih (i + 1) _ k (fun j h1 h2 => hnone j (by omega) (by simp; omega)),
        pLookup_pSet, if_neg (show ¬(k = nm) from fun h => hk h.symm)]

/-- The binding loop of `Layer.params` binds the parameter name at a
position to that position's decoded capture, provided no later position
rebinds the same name. -/
lemma paramsGo_binds (names : List String) :
    ∀ (cs : List String) (i0 : Nat) (m : List (String × String)) (di : Nat)
      (c k : String),
      cs[di]? = some c → names[i0 + di]? = some k →
      (∀ j, i0 + di < j → j < i0 + cs.length → names[j]? ≠ some k) →
      pLookup (paramsGo names i0 cs m) k = some (decodedCapture c) := by
  intro cs
  induction cs with
  | nil => intro i0 m di c k hc; simp at hc
  | cons c0 t ih =>
    intro i0 m di c k hc hn hafter
    rcases di with _ | d
    · simp at hc
      subst hc
      rw [paramsGo]
      have hni : names[i0]? = some k := by simpa using hn
      rw [hni]
      rw [paramsGo_untouched names t (i0 + 1) _ k
        (fun j h1 h2 => hafter j (by omega) (by simp; omega))]
      rw [pLookup_pSet]
      simp
    · rw [paramsGo]
      have hc2 : t[d]? = some c := by simpa using hc
      have hn2 : names[(i0 + 1) + d]? = some k := by
        rw [show (i0 + 1) + d = i0 + (d + 1) by omega]
        exact hn
      exact ih (i0 + 1) _ d c k hc2 hn2
        (fun j h1 h2 => hafter j (by omega) (by simp at h2 ⊢; omega))

/-- C7: `Layer.params` binds, for each capture position carrying a
parameter name, the percent-decoded capture when decoding succeeds and the
raw still-encoded capture when decoding fails (never throwing), and merges
into the existing parameter map: keys never bound by a capture keep their
existing values. -/
theorem claim_C7 (names : List String) (captures : List String)
    (existingParams : List (String × String)) :
    (∀ k : String, (∀ j, j < captures.length → names[j]? ≠ some k) →
      pLookup (layerParams names captures existingParams) k =
        pLookup existingParams k) ∧
    (∀ (i : Nat) (c k : String), captures[i]? = some c → names[i]? = some k →
      (∀ j, i < j → j < captures.length → names[j]? ≠ some k) →
      pLookup (layerParams names captures existingParams) k =
        some (decodedCapture c)) ∧
    (∀ c d : String, decodeURIComponentOpt c = some d →
      safeDecodeURIComponent c = d) ∧
    (∀ c : String, decodeURIComponentOpt c = none → safeDecodeURIComponent c = c) := by
  refine ⟨?_, ?_, ?_, ?_⟩
  · intro k hk
    exact paramsGo_untouched names captures 0 existingParams k
      (fun j _ h2 => hk j (by omega))
  · intro i c k hc hn hafter
    exact paramsGo_binds names captures 0 existingParams i c k hc (by simpa using hn)
      (fun j h1 h2 => hafter j (by omega) (by omega))
  · intro c d h
    rw [safeDecodeURIComponent, h]
  · intro c h
    rw [safeDecodeURIComponent, h]

/-- Witness for C7: the route parameter `id` bound from capture `42`
(decoding succeeds and round-trips), an unrelated existing key preserved,
and the malformed capture `100%` falling back to its raw form. -/
theorem claim_C7_witness :
    pLookup (layerParams ["id"] ["42"] [("x", "1")]) "id" =
      some (decodedCapture "42") ∧
    decodedCapture "42" = "42" ∧
    pLookup (layerParams ["id"] ["42"] [("x", "1")]) "x" = some "1" ∧
    safeDecodeURIComponent "100%" = "100%" := by
  refine ⟨?_, by decide, ?_, ?_⟩
  · exact (claim_C7 ["id"] ["42"] [("x", "1")]).2.1 0 "42" "id" (by decide) (by decide)
      (fun j h1 h2 => by simp at h2; omega)
  · exact (claim_C7 ["id"] ["42"] [("x", "1")]).1 "x"
      (fun j hj => by
        simp at hj
        have hj0 : j = 0 := by omega
        subst hj0
        decide)
  · exact (claim_C7 ["id"] ["42"] [("x", "1")]).2.2.2 "100%" (by decide)

/-- Interpreter results are stable under extra fuel. -/
lemma execMono : ∀ fuel : Nat,
    (∀ F ps i x, execDispatch fuel F ps i = some x →
      execDispatch (fuel + 1) F ps i = some x) ∧
    (∀ F ps p j x, execProg fuel F ps p j = some x →
      execProg (fuel + 1) F ps p j = some x) := by
  intro fuel
  induction fuel with
  | zero =>
    constructor
    · intro F ps i x h
      simp [execDispatch] at h
    · intro F ps p j x h
      simp [execProg] at h
  | succ n ih =>
    obtain ⟨ihD, ihP⟩ := ih
    constructor
    · intro F ps i x h
      rw [execDispatch] at h ⊢
      by_cases hg : (i : Int) ≤ F.idx
      · rw [if_pos hg] at h ⊢
        exact h
      · rw [if_neg hg] at h ⊢
        rcases hm : F.mws[i]? with _ | p
        · simp only [hm] at h ⊢
          by_cases hi : i = F.mws.length
          · rw [if_pos hi] at h ⊢
            rcases ps with _ | ⟨⟨j, pf⟩, rest⟩
            · rcases ht : F.topTerm with _ | t
              · rw [ht] at h
                exact h
              · rw [ht] at h
                exact ihP _ _ _ _ _ h
            · simp only [] at h ⊢
              rcases hd : execDispatch n pf rest j with _ | ⟨⟨pf2, rest2⟩, res⟩
              · rw [hd] at h
                exact absurd h (by simp)
              · rw [hd] at h
                rw [ihD _ _ _ _ hd]
                exact h
          · rw [if_neg hi] at h ⊢
            exact h
        · simp only [hm] at h ⊢
          exact ihP _ _ _ _ _ h
    · intro F ps p j x h
      rcases p with r | e | _ | rest | inner
      · exact h
      · exact h
      · exact ihD _ _ _ _ h
      · rw [execProg] at h ⊢
        rcases hd : execDispatch n F ps j with _ | ⟨⟨F2, ps2⟩, res⟩
        · rw [hd] at h
          exact absurd h (by simp)
        · rw [hd] at h
          rw [ihD _ _ _ _ hd]
          rcases res with e | r
          · exact h
          · exact ihP _ _ _ _ _ h
      · rw [execProg] at h ⊢
        rcases hd : execDispatch n { mws := inner, topTerm := none, idx := -1 }
            ((j, F) :: ps) 0 with _ | ⟨⟨iF, ps2⟩, res⟩
        · rw [hd] at h
          exact absurd h (by simp)
        · rw [hd] at h
          rw [ihD _ _ _ _ hd]
          exact h

/-- The per-parent-entry relation underlying `stepOK`. -/
lemma stepOK_refl (S : Frame × List (Nat × Frame)) : stepOK S S :=
  ⟨⟨rfl, rfl⟩, le_refl _,
    List.forall₂_same.mpr (fun _ _ => ⟨rfl, ⟨rfl, rfl⟩, le_refl _⟩)⟩

/-- Transitivity of the parent-entry relation lists. -/
lemma forall2_pf_trans :
    ∀ {l1 l2 l3 : List (Nat × Frame)},
      List.Forall₂ (fun a b : Nat × Frame =>
        a.1 = b.1 ∧ frameShapeEq a.2 b.2 ∧ a.2.idx ≤ b.2.idx) l1 l2 →
      List.Forall₂ (fun a b : Nat × Frame =>
        a.1 = b.1 ∧ frameShapeEq a.2 b.2 ∧ a.2.idx ≤ b.2.idx) l2 l3 →
      List.Forall₂ (fun a b : Nat × Frame =>
        a.1 = b.1 ∧ frameShapeEq a.2 b.2 ∧ a.2.idx ≤ b.2.idx) l1 l3 := by
  intro l1 l2 l3 h1
  induction h1 generalizing l3 with
  | nil =>
    intro h2
    cases h2
    exact List.Forall₂.nil
  | cons hab h1 ih =>
    intro h2
    cases h2 with
    | cons hbc h2 =>
      refine List.Forall₂.cons ?_ (ih h2)
      exact ⟨hab.1.trans hbc.1,
        ⟨hab.2.1.1.trans hbc.2.1.1, hab.2.1.2.trans hbc.2.1.2⟩,
        le_trans hab.2.2 hbc.2.2⟩

/-- Transitivity of the step relation. -/
lemma stepOK_trans {S1 S2 S3 : Frame × List (Nat × Frame)}
    (h1 : stepOK S1 S2) (h2 : stepOK S2 S3) : stepOK S1 S3 :=
  ⟨⟨h1.1.1.trans h2.1.1, h1.1.2.trans h2.1.2⟩, le_trans h1.2.1 h2.2.1,
    forall2_pf_trans h1.2.2 h2.2.2⟩

/-- Raising the current dispatch index is a step. -/
lemma stepOK_bump (F : Frame) (ps : List (Nat × Frame)) (i : Nat)
    (h : F.idx < (i : Int)) :
    stepOK (F, ps) ({ F with idx := (i : Int) }, ps) :=
  ⟨⟨rfl, rfl⟩, le_of_lt h, List.forall₂_same.mpr (fun _ _ => ⟨rfl, ⟨rfl, rfl⟩, le_refl _⟩)⟩

/-- Every successful interpreter step preserves the stack shape and is
monotone in all dispatch indices; a successful dispatch at `i` moreover
leaves the current frame index at least `i`. -/
lemma execStepOK : ∀ fuel : Nat,
    (∀ F ps i S2 res, execDispatch fuel F ps i = some (S2, res) →
      stepOK (F, ps) S2 ∧ (i : Int) ≤ S2.1.idx) ∧
    (∀ F ps p j S2 res, execProg fuel F ps p j = some (S2, res) →
      stepOK (F, ps) S2) := by
  intro fuel
  induction fuel with
  | zero =>
    constructor
    · intro F ps i S2 res h
      simp [execDispatch] at h
    · intro F ps p j S2 res h
      simp [execProg] at h
  | succ n ih =>
    obtain ⟨ihD, ihP⟩ := ih
    constructor
    · intro F ps i S2 res h
      rcases S2 with ⟨F2, ps2⟩
      rw [execDispatch] at h
      by_cases hg : (i : Int) ≤ F.idx
      · rw [if_pos hg] at h
        simp only [Option.some.injEq, Prod.mk.injEq] at h
        obtain ⟨⟨hA, hB⟩, hC⟩ := h
        subst hA
        subst hB
        exact ⟨stepOK_refl _, hg⟩
      · have hlt : F.idx < (i : Int) := lt_of_not_le hg
        rw [if_neg hg] at h
        rcases hm : F.mws[i]? with _ | p
        · simp only [hm] at h
          by_cases hi : i = F.mws.length
          · rw [if_pos hi] at h
            rcases ps with _ | ⟨⟨j0, pf⟩, rest⟩
            · rcases ht : F.topTerm with _ | t
              · rw [ht] at h
                simp only [Option.some.injEq, Prod.mk.injEq] at h
                obtain ⟨⟨hA, hB⟩, hC⟩ := h
                subst hA
                subst hB
                have hb := stepOK_bump F [] i hlt
                rw [ht] at hb
                exact ⟨hb, le_refl _⟩
              · rw [ht] at h
                have hsub := ihP _ _ _ _ _ _ h
                have hb := stepOK_bump F [] i hlt
                rw [ht] at hb
                exact ⟨stepOK_trans hb hsub, hsub.2.1⟩
            · simp only [] at h
              rcases hd : execDispatch n pf rest j0 with _ | ⟨⟨pf2, rest2⟩, res2⟩
              · rw [hd] at h
                exact absurd h (by simp)
              · rw [hd] at h
                simp only [Option.some.injEq, Prod.mk.injEq] at h
                obtain ⟨⟨hA, hB⟩, hC⟩ := h
                subst hA
                subst hB
                obtain ⟨hsub, _⟩ := ihD _ _ _ _ _ hd
                refine ⟨⟨⟨rfl, rfl⟩, le_of_lt hlt, ?_⟩, le_refl _⟩
                exact List.Forall₂.cons ⟨rfl, hsub.1, hsub.2.1⟩ hsub.2.2
          · rw [if_neg hi] at h
            simp only [Option.some.injEq, Prod.mk.injEq] at h
            obtain ⟨⟨hA, hB⟩, hC⟩ := h
            subst hA
            subst hB
            exact ⟨stepOK_bump F ps i hlt, le_refl _⟩
        · simp only [hm] at h
          have hsub := ihP _ _ _ _ _ _ h
          exact ⟨stepOK_trans (stepOK_bump F ps i hlt) hsub, hsub.2.1⟩
    · intro F ps p j S2 res h
      rcases S2 with ⟨F2, ps2⟩
      rcases p with r | e | _ | rest | inner
      · have h2 : (some ((F, ps), Except.ok r) :
            Option ((Frame × List (Nat × Frame)) × Except String IResponse)) =
            some ((F2, ps2), res) := h
        simp only [Option.some.injEq, Prod.mk.injEq] at h2
        obtain ⟨⟨hA, hB⟩, hC⟩ := h2
        subst hA
        subst hB
        exact stepOK_refl _
      · have h2 : (some ((F, ps), Except.error e) :
            Option ((Frame × List (Nat × Frame)) × Except String IResponse)) =
            some ((F2, ps2), res) := h
        simp only [Option.some.injEq, Prod.mk.injEq] at h2
        obtain ⟨⟨hA, hB⟩, hC⟩ := h2
        subst hA
        subst hB
        exact stepOK_refl _
      · have h2 : execDispatch n F ps j = some ((F2, ps2), res) := h
        exact (ihD _ _ _ _ _ h2).1
      · rw [execProg] at h
        rcases hd : execDispatch n F ps j with _ | ⟨⟨F3, ps3⟩, res3⟩
        · rw [hd] at h
          exact absurd h (by simp)
        · rw [hd] at h
          obtain ⟨hsub, _⟩ := ihD _ _ _ _ _ hd
          rcases res3 with e | r
          · simp only [Option.some.injEq, Prod.mk.injEq] at h
            obtain ⟨⟨hA, hB⟩, hC⟩ := h
            subst hA
            subst hB
            exact hsub
          · exact stepOK_trans hsub (ihP _ _ _ _ _ _ h)
      · rw [execProg] at h
        rcases hd : execDispatch n { mws := inner, topTerm := none, idx := -1 }
            ((j, F) :: ps) 0 with _ | ⟨⟨iF, psI⟩, resI⟩
        · rw [hd] at h
          exact absurd h (by simp)
        · rw [hd] at h
          obtain ⟨hsub, _⟩ := ihD _ _ _ _ _ hd
          rcases psI with _ | ⟨⟨j2, F3⟩, rest2⟩
          · cases hsub.2.2
          · simp only [Option.some.injEq, Prod.mk.injEq] at h
            obtain ⟨⟨hA, hB⟩, hC⟩ := h
            subst hA
            subst hB
            cases hsub.2.2 with
            | cons hhead htail =>
              exact ⟨⟨hhead.2.1.1, hhead.2.1.2⟩, hhead.2.2, htail⟩

/-- The bottom frame of a state with a parent is the bottom frame of the
parent's state. -/
lemma bottomFrame_cons (G : Frame) (q : Nat × Frame) (qs : List (Nat × Frame)) :
    bottomFrame (G, q :: qs) = bottomFrame (q.2, qs) := by
  unfold bottomFrame
  rcases qs with _ | ⟨q2, qs2⟩
  · simp
  · rw [List.getLast?_cons_cons]
    rcases hq : (q2 :: qs2).getLast? with _ | a
    · simp at hq
    · simp [hq]

/-- Related parent lists have related last entries (or are both empty). -/
lemma forall2_pf_getLast :
    ∀ {l1 l2 : List (Nat × Frame)},
      List.Forall₂ (fun a b : Nat × Frame =>
        a.1 = b.1 ∧ frameShapeEq a.2 b.2 ∧ a.2.idx ≤ b.2.idx) l1 l2 →
      (l1 = [] ∧ l2 = []) ∨
      (∃ a b, l1.getLast? = some a ∧ l2.getLast? = some b ∧
        frameShapeEq a.2 b.2 ∧ a.2.idx ≤ b.2.idx) := by
  intro l1 l2 h
  induction h with
  | nil => exact Or.inl ⟨rfl, rfl⟩
  | cons hab htail ih =>
    rcases ih with ⟨h1, h2⟩ | ⟨a2, b2, ha2, hb2, hsh, hle⟩
    · subst h1
      subst h2
      exact Or.inr ⟨_, _, rfl, rfl, hab.2.1, hab.2.2⟩
    · rcases htail with _ | ⟨hab2, htail2⟩
      · simp at ha2
      · refine Or.inr ⟨a2, b2, ?_, ?_, hsh, hle⟩
        · rw [List.getLast?_cons_cons]
          exact ha2
        · rw [List.getLast?_cons_cons]
          exact hb2

/-- An execution step preserves the bottom frame's shape and cannot
decrease its index. -/
lemma stepOK_bottom {S S2 : Frame × List (Nat × Frame)} (h : stepOK S S2) :
    frameShapeEq (bottomFrame S) (bottomFrame S2) ∧
      (bottomFrame S).idx ≤ (bottomFrame S2).idx := by
  rcases S with ⟨F, ps⟩
  rcases S2 with ⟨F2, ps2⟩
  obtain ⟨hshape, hidx, hf2⟩ := h
  rcases forall2_pf_getLast hf2 with ⟨h1, h2⟩ | ⟨a, b, ha, hb, hsh, hle⟩
  · subst h1
    subst h2
    exact ⟨hshape, hidx⟩
  · unfold bottomFrame
    simp only [ha, hb]
    exact ⟨hsh, hle⟩

/-- Simulation: a successful run that never dispatches the bottom frame's
terminal is insensitive to parent frames appended below the stack — it
produces the same result and leaves the appended frames untouched. A run
that does dispatch the bottom terminal leaves the bottom index at (or past)
the bottom chain's length. -/
lemma execSim : ∀ fuel : Nat,
    (∀ F ps i S2 res extra, execDispatch fuel F ps i = some (S2, res) →
      ((bottomFrame S2).mws.length : Int) ≤ (bottomFrame S2).idx ∨
      execDispatch fuel F (ps ++ extra) i = some ((S2.1, S2.2 ++ extra), res)) ∧
    (∀ F ps p j S2 res extra, execProg fuel F ps p j = some (S2, res) →
      ((bottomFrame S2).mws.length : Int) ≤ (bottomFrame S2).idx ∨
      execProg fuel F (ps ++ extra) p j = some ((S2.1, S2.2 ++ extra), res)) := by
  intro fuel
  induction fuel with
  | zero =>
    constructor
    · intro F ps i S2 res extra h
      simp [execDispatch] at h
    · intro F ps p j S2 res extra h
      simp [execProg] at h
  | succ n ih =>
    obtain ⟨ihD, ihP⟩ := ih
    constructor
    · intro F ps i S2 res extra h
      rcases S2 with ⟨F2, ps2⟩
      rw [execDispatch] at h
      by_cases hg : (i : Int) ≤ F.idx
      · rw [if_pos hg] at h
        simp only [Option.some.injEq, Prod.mk.injEq] at h
        obtain ⟨⟨hA, hB⟩, hC⟩ := h
        subst hA
        subst hB
        subst hC
        right
        rw [execDispatch, if_pos hg]
      · rw [if_neg hg] at h
        rcases hm : F.mws[i]? with _ | p
        · simp only [hm] at h
          by_cases hi : i = F.mws.length
          · rw [if_pos hi] at h
            rcases ps with _ | ⟨⟨j0, pf⟩, rest⟩
            · left
              rcases ht : F.topTerm with _ | t
              · rw [ht] at h
                simp only [Option.some.injEq, Prod.mk.injEq] at h
                obtain ⟨⟨hA, hB⟩, hC⟩ := h
                subst hA
                subst hB
                unfold bottomFrame
                simp [hi]
              · rw [ht] at h
                have hsub := (execStepOK n).2 _ _ _ _ _ _ h
                have hps2 : ps2 = [] := by
                  cases hsub.2.2
                  rfl
                subst hps2
                unfold bottomFrame
                simp only [List.getLast?_nil]
                have hmws : F2.mws = F.mws := by
                  have := hsub.1.1
                  simpa using this.symm
                have hidx : ((F.mws.length : Nat) : Int) ≤ F2.idx := by
                  have h2 := hsub.2.1
                  simp only at h2
                  rw [hi] at h2
                  exact h2
                rw [hmws]
                exact hidx
            · simp only [] at h
              rcases hd : execDispatch n pf rest j0 with _ | ⟨⟨pf2, rest2⟩, res2⟩
              · rw [hd] at h
                exact absurd h (by simp)
              · rw [hd] at h
                simp only [Option.some.injEq, Prod.mk.injEq] at h
                obtain ⟨⟨hA, hB⟩, hC⟩ := h
                subst hA
                subst hB
                subst hC
                rcases ihD _ _ _ _ _ extra hd with hleft | hright
                · left
                  rw [bottomFrame_cons]
                  exact hleft
                · right
                  rw [execDispatch, if_neg hg]
                  simp only [hm, if_pos hi, List.cons_append]
                  rw [hright]
          · rw [if_neg hi] at h
            simp only [Option.some.injEq, Prod.mk.injEq] at h
            obtain ⟨⟨hA, hB⟩, hC⟩ := h
            subst hA
            subst hB
            subst hC
            right
            rw [execDispatch, if_neg hg]
            simp only [hm, if_neg hi]
        · simp only [hm] at h
          rcases ihP _ _ _ _ _ _ extra h with hleft | hright
          · exact Or.inl hleft
          · right
            rw [execDispatch, if_neg hg]
            simp only [hm]
            exact hright
    · intro F ps p j S2 res extra h
      rcases S2 with ⟨F2, ps2⟩
      rcases p with r | e | _ | rest | inner
      · have h2 : (some ((F, ps), Except.ok r) :
            Option ((Frame × List (Nat × Frame)) × Except String IResponse)) =
            some ((F2, ps2), res) := h
        simp only [Option.some.injEq, Prod.mk.injEq] at h2
        obtain ⟨⟨hA, hB⟩, hC⟩ := h2
        subst hA
        subst hB
        subst hC
        right
        rfl
      · have h2 : (some ((F, ps), Except.error e) :
            Option ((Frame × List (Nat × Frame)) × Except String IResponse)) =
            some ((F2, ps2), res) := h
        simp only [Option.some.injEq, Prod.mk.injEq] at h2
        obtain ⟨⟨hA, hB⟩, hC⟩ := h2
        subst hA
        subst hB
        subst hC
        right
        rfl
      · have h2 : execDispatch n F ps j = some ((F2, ps2), res) := h
        rcases ihD _ _ _ _ _ extra h2 with hleft | hright
        · exact Or.inl hleft
        · right
          exact hright
      · rw [execProg] at h
        rcases hd : execDispatch n F ps j with _ | ⟨⟨F3, ps3⟩, res3⟩
        · rw [hd] at h
          exact absurd h (by simp)
        · rw [hd] at h
          rcases res3 with e | r
          · simp only [Option.some.injEq, Prod.mk.injEq] at h
            obtain ⟨⟨hA, hB⟩, hC⟩ := h
            subst hA
            subst hB
            subst hC
            rcases ihD _ _ _ _ _ extra hd with hleft | hright
            · exact Or.inl hleft
            · right
              rw [execProg, hright]
          · rcases ihD _ _ _ _ _ extra hd with hleft | hright
            · left
              have hsub := (execStepOK n).2 _ _ _ _ _ _ h
              obtain ⟨hsh, hle⟩ := stepOK_bottom hsub
              calc ((bottomFrame (F2, ps2)).mws.length : Int)
                  = ((bottomFrame (F3, ps3)).mws.length : Int) := by rw [hsh.1]
                _ ≤ (bottomFrame (F3, ps3)).idx := hleft
                _ ≤ (bottomFrame (F2, ps2)).idx := hle
            · rcases ihP _ _ _ _ _ _ extra h with hleft2 | hright2
              · exact Or.inl hleft2
              · right
                rw [execProg, hright]
                exact hright2
      · rw [execProg] at h
        rcases hd : execDispatch n { mws := inner, topTerm := none, idx := -1 }
            ((j, F) :: ps) 0 with _ | ⟨⟨iF, psI⟩, resI⟩
        · rw [hd] at h
          exact absurd h (by simp)
        · rw [hd] at h
          rcases psI with _ | ⟨⟨j2, F3⟩, rest2⟩
          · exact absurd h (by simp)
          · simp only [Option.some.injEq, Prod.mk.injEq] at h
            obtain ⟨⟨hA, hB⟩, hC⟩ := h
            subst hA
            subst hB
            subst hC
            rcases ihD _ _ _ _ _ extra hd with hleft | hright
            · left
              rw [bottomFrame_cons] at hleft
              exact hleft
            · right
              rw [execProg]
              have hshape : ((j, F) :: ps) ++ extra = (j, F) :: (ps ++ extra) := rfl
              rw [← hshape, hright]
              simp

/-- C3: the double-`next` check of `compose`. First conjunct: within one
invocation, after a handler's call of its continuation at position `j`
succeeded, running the remainder of a handler that calls the same
continuation a second time (directly or via `return next()`) rejects with
the error "next() called multiple times". Second conjunct: the dispatch
index is local to each invocation of a composed handler — a composed chain
run re-entrantly inside any enclosing chain, provided its standalone run
completes without dispatching its terminal continuation, produces exactly
its standalone result and leaves every enclosing invocation's dispatch
state untouched (so distinct invocations never trigger or suppress each
other's check). -/
theorem claim_C3 :
    (∀ (fuel : Nat) (F : Frame) (ps : List (Nat × Frame)) (j : Nat)
        (S2 : Frame × List (Nat × Frame)) (r : IResponse) (rest : Prog),
      execDispatch (fuel + 1) F ps j = some (S2, .ok r) →
      (rest = .retNext ∨ ∃ q, rest = .seqNext q) →
      execProg (fuel + 3) F ps (.seqNext rest) j =
        some (S2, .error nextMultipleMsg)) ∧
    (∀ (fuel : Nat) (c : List Prog) (S2f : Frame × List (Nat × Frame))
        (res : Except String IResponse) (G : Frame) (ps : List (Nat × Frame))
        (j : Nat),
      execDispatch fuel { mws := c, topTerm := none, idx := -1 } [] 0 =
        some (S2f, res) →
      S2f.1.idx < (c.length : Int) →
      execProg (fuel + 1) G ps (.subChain c) j = some ((G, ps), res)) := by
  constructor
  · intro fuel F ps j S2 r rest h hrest
    have hidx : (j : Int) ≤ S2.1.idx := ((execStepOK (fuel + 1)).1 _ _ _ _ _ h).2
    have h2 : execDispatch (fuel + 2) F ps j = some (S2, .ok r) :=
      (execMono (fuel + 1)).1 _ _ _ _ h
    rcases S2 with ⟨F2, ps2⟩
    rw [execProg, h2]
    simp only []
    have hguard : execDispatch (fuel + 1) F2 ps2 j =
        some ((F2, ps2), .error nextMultipleMsg) := by
      rw [execDispatch, if_pos hidx]
    rcases hrest with hrest | ⟨q, hrest⟩
    · subst hrest
      exact hguard
    · subst hrest
      rw [execProg, hguard]
  · intro fuel c S2f res G ps j h hlt
    rcases S2f with ⟨F2, ps2⟩
    have hstep := ((execStepOK fuel).1 _ _ _ _ _ h).1
    have hps2 : ps2 = [] := by
      cases hstep.2.2
      rfl
    subst hps2
    have hshape : F2.mws = c := by
      have := hstep.1.1
      simpa using this.symm
    rcases (execSim fuel).1 _ _ _ _ _ ((j, G) :: ps) h with hleft | hright
    · exfalso
      have hbot : bottomFrame (F2, ([] : List (Nat × Frame))) = F2 := rfl
      rw [hbot, hshape] at hleft
      simp only at hlt
      omega
    · rw [execProg]
      have hr2 : execDispatch fuel { mws := c, topTerm := none, idx := -1 }
          ((j, G) :: ps) 0 = some ((F2, (j, G) :: ps), res) := by
        simpa using hright
      rw [hr2]

/-- Witness for C3: a one-middleware chain in which the continuation at
position 1 resolves successfully once and a second call fails with the
guard error, and a sub-invocation of a chain `[done {}]` inside an
arbitrary-looking enclosing state returning its standalone result with the
enclosing state untouched. -/
theorem claim_C3_witness :
    execDispatch 3 { mws := [Prog.done emptyIResponse], topTerm := none, idx := -1 }
      [] 1 =
      some (({ mws := [Prog.done emptyIResponse], topTerm := none, idx := 1 }, []),
        .ok emptyIResponse) ∧
    execProg 5 { mws := [Prog.done emptyIResponse], topTerm := none, idx := -1 } []
      (.seqNext .retNext) 1 =
      some (({ mws := [Prog.done emptyIResponse], topTerm := none, idx := 1 }, []),
        .error nextMultipleMsg) ∧
    execProg 3 { mws := [], topTerm := none, idx := 5 } []
      (.subChain [Prog.done emptyIResponse]) 9 =
      some (({ mws := [], topTerm := none, idx := 5 }, []), .ok emptyIResponse) := by
  have h1 : execDispatch 3
      { mws := [Prog.done emptyIResponse], topTerm := none, idx := -1 } [] 1 =
      some (({ mws := [Prog.done emptyIResponse], topTerm := none, idx := 1 }, []),
        .ok emptyIResponse) := rfl
  have h2 : execDispatch 2
      { mws := [Prog.done emptyIResponse], topTerm := none, idx := -1 } [] 0 =
      some (({ mws := [Prog.done emptyIResponse], topTerm := none, idx := 0 }, []),
        .ok emptyIResponse) := rfl
  refine ⟨h1, claim_C3.1 2 _ [] 1 _ emptyIResponse _ h1 (Or.inl rfl), ?_⟩
  exact claim_C3.2 2 [Prog.done emptyIResponse] _ _
    { mws := [], topTerm := none, idx := 5 } [] 9 h2 (by decide)

/-- C10: the handler `compose` builds from an empty middleware list is the
identity on the terminal continuation: with no terminal continuation it
resolves with the empty response object; a terminal continuation is invoked
exactly once with the unchanged context and its result is returned; and the
terminal continuation itself receives a working next that resolves with the
empty response object. -/
theorem claim_C10 {Ctx : Type} (ctx : Ctx) (fuel : Nat) (f : Ctx → IResponse) :
    composeRun ([] : List (Ctx → Prog)) none ctx (fuel + 2) =
      some (({ mws := [], topTerm := none, idx := 0 }, []), .ok emptyIResponse) ∧
    composeRun ([] : List (Ctx → Prog)) (some (fun c => .done (f c))) ctx (fuel + 2) =
      some (({ mws := [], topTerm := some (.done (f ctx)), idx := 0 }, []),
        .ok (f ctx)) ∧
    composeRun ([] : List (Ctx → Prog)) (some (fun _ => .retNext)) ctx (fuel + 3) =
      some (({ mws := [], topTerm := some .retNext, idx := 1 }, []),
        .ok emptyIResponse) :=
  ⟨rfl, rfl, rfl⟩

/-- C5: `normalizeResponseBody` on an absent handler result answers 501
with status text "Server did not produce a valid response", while the
default terminal handler (the no-route case) answers 404 with body
"Not found" — two distinct statuses. -/
theorem claim_C5 (req : Request) :
    (normalizeResponseBody req .nullR).status = 501 ∧
    (normalizeResponseBody req .nullR).statusText =
      "Server did not produce a valid response" ∧
    defaultHandler.status = some 404 ∧
    defaultHandler.body = .strB "Not found" ∧
    (normalizeResponseBody req .nullR).status ≠ 404 :=
  ⟨rfl, rfl, rfl, rfl, by simp [normalizeResponseBody]⟩

/-- C6: the `Layer` constructor's method set contains `HEAD` whenever the
given method list contains `GET`. -/
theorem claim_C6 (methods : List HTTPMethod) (h : HTTPMethod.GET ∈ methods) :
    HTTPMethod.HEAD ∈ layerMethods methods :=
  layerMethods_fold_head methods [] (Or.inl h)

/-- Witness for C6 at the concrete method list `[GET]`. -/
theorem claim_C6_witness :
    HTTPMethod.GET ∈ [HTTPMethod.GET] ∧
      HTTPMethod.HEAD ∈ layerMethods [HTTPMethod.GET] :=
  ⟨by decide, claim_C6 [HTTPMethod.GET] (by decide)⟩

/-- C9: `Router.use` for a plain middleware sets `ignoreCaptures` exactly
when no explicit path scope was given and the router's own prefix contains
no named parameters (the prefix key list compiled by `pathToRegexp` is
empty, or the prefix is absent/empty hence trivially parameterless); in
particular an explicit path scope never ignores captures. -/
theorem claim_C9 (path : Option String) (routerPfx : Option String)
    (keysOf : String → List String) :
    (useIgnoreCaptures path routerPfx keysOf = true ↔
      (path = none ∧ ((routerPfx.getD "") = "" ∨ keysOf (routerPfx.getD "") = []))) ∧
    (∀ p : String, path = some p → useIgnoreCaptures path routerPfx keysOf = false) := by
  constructor
  · cases path with
    | none => simp [useIgnoreCaptures, List.isEmpty_iff]
    | some p => simp [useIgnoreCaptures]
  · intro p hp
    subst hp
    simp [useIgnoreCaptures]

/-- C4 counterexample: for a downstream result with status 100 and a
`Content-Type` header, `normalizeResponseBody` does strip the body but
leaves the `Content-Type` header in place, contradicting the claim that
the body-related headers are removed in every 1xx/204/304/HEAD case. -/
theorem claim_C4_counterexample :
    (normalizeResponseBody { method := .GET }
      (.plain { status := some 100, statusText := none
                headers := [("Content-Type", "text/plain")]
                body := .noneB, hasWsCb := false })).body = .noneB ∧
    hHas (normalizeResponseBody { method := .GET }
      (.plain { status := some 100, statusText := none
                headers := [("Content-Type", "text/plain")]
                body := .noneB, hasWsCb := false })).headers "Content-Type" = true :=
  ⟨rfl, by decide⟩

/-- C4 (amended): for a non-null, non-101, non-canonical handler result,
if the status is 1xx, 204 or 304 or the method is HEAD, the normalized
response has no body; the `Content-Type`/`Content-Length`/`Transfer-Encoding`
headers are removed when the status is 204 or 304, and only then: in every
other case of this branch (1xx statuses other than 204/304, and HEAD) the
response headers come through exactly as given (the header object built
from the handler's headers, with nothing deleted). -/
theorem claim_C4_amended (req : Request) (r : IResponse)
    (hn101 : r.status ≠ some 101)
    (hcase : (∃ s, r.status = some s ∧ 100 ≤ s ∧ s < 200) ∨ r.status = some 204 ∨
      r.status = some 304 ∨ req.method = .HEAD) :
    (normalizeResponseBody req (.plain r)).body = .noneB ∧
    ((r.status = some 204 ∨ r.status = some 304) →
      hHas (normalizeResponseBody req (.plain r)).headers "Content-Type" = false ∧
      hHas (normalizeResponseBody req (.plain r)).headers "Content-Length" = false ∧
      hHas (normalizeResponseBody req (.plain r)).headers "Transfer-Encoding" = false) ∧
    (¬(r.status = some 204 ∨ r.status = some 304) →
      (normalizeResponseBody req (.plain r)).headers = headersInit r.headers) := by
  have hcond : isNoBody req r.status = true := by
    rcases hcase with ⟨s, hs, h1, h2⟩ | h | h | h
    · simp [isNoBody, hs, h1, h2]
    · simp [isNoBody, h]
    · simp [isNoBody, h]
    · simp [isNoBody, h]
  have hnorm : normalizeResponseBody req (.plain r) =
      { status := r.status.getD 200, statusText := r.statusText.getD ""
        headers := normMutableHeaders r, body := .noneB, hasWsCb := false } := by
    simp only [normalizeResponseBody, HandlerOut.statusOf]
    rw [if_neg hn101, hcond]
    simp
  rw [hnorm]
  refine ⟨rfl, ?_, ?_⟩
  · intro h234
    have hif : (decide (r.status = some 204) || decide (r.status = some 304)) = true := by
      rcases h234 with h | h <;> simp [h]
    rw [normMutableHeaders]
    simp only [hif, if_true]
    refine ⟨?_, ?_, ?_⟩
    · exact hHas_hDelete_false _ _ _ (hHas_hDelete_false _ _ _ (hHas_hDelete_self _ _))
    · exact hHas_hDelete_false _ _ _ (hHas_hDelete_self _ _)
    · exact hHas_hDelete_self _ _
  · intro h234
    have hif : (decide (r.status = some 204) || decide (r.status = some 304)) = false := by
      push_neg at h234
      simp [h234.1, h234.2]
    rw [normMutableHeaders]
    simp only [hif]
    rfl

/-- Witness for the amended C4: a concrete 204 response carrying
body-related headers (headers removed), and a concrete 100 response whose
headers come through exactly as given. -/
theorem claim_C4_amended_witness :
    (({ status := some 204, statusText := none
        headers := [("Content-Type", "text/plain"), ("Content-Length", "5")]
        body := .strB "hello", hasWsCb := false } : IResponse).status ≠ some 101) ∧
    (normalizeResponseBody { method := .GET }
      (.plain { status := some 204, statusText := none
                headers := [("Content-Type", "text/plain"), ("Content-Length", "5")]
                body := .strB "hello", hasWsCb := false })).body = .noneB ∧
    hHas (normalizeResponseBody { method := .GET }
      (.plain { status := some 204, statusText := none
                headers := [("Content-Type", "text/plain"), ("Content-Length", "5")]
                body := .strB "hello", hasWsCb := false })).headers "Content-Type" = false ∧
    (normalizeResponseBody { method := .GET }
      (.plain { status := some 100, statusText := none
                headers := [("Content-Type", "text/plain"), ("Content-Length", "5")]
                body := .noneB, hasWsCb := false })).headers =
      headersInit [("Content-Type", "text/plain"), ("Content-Length", "5")] := by
  have h := claim_C4_amended { method := .GET }
    { status := some 204, statusText := none
      headers := [("Content-Type", "text/plain"), ("Content-Length", "5")]
      body := .strB "hello", hasWsCb := false }
    (by decide) (Or.inr (Or.inl rfl))
  have h100 := claim_C4_amended { method := .GET }
    { status := some 100, statusText := none
      headers := [("Content-Type", "text/plain"), ("Content-Length", "5")]
      body := .noneB, hasWsCb := false }
    (by decide) (Or.inl ⟨100, rfl, by decide, by decide⟩)
  exact ⟨by decide, h.1, (h.2.1 (Or.inl rfl)).1, h100.2.2 (by decide)⟩

/-- C1 evaluation at the failing input: a router with the default
implemented-method list, an empty matched list and a downstream 404
("Not found"): the claim says `allowedMethods` passes the downstream
response through unchanged, but the code's middleware falls through and
returns `undefined` (modelled `.ok none`), not the downstream response. -/
theorem claim_C1_code_eval :
    allowedMethodsCore defaultRouterMethods { thr := false } (some []) .GET
      initialResponse = .ok none ∧
    ((Except.ok (some initialResponse) : Except AllowedErr (Option IResponse)) ≠
      .ok none) :=
  ⟨rfl, by simp⟩

end HttpServer




